import Mathlib

/-!
Verification of the resilient outbound dispatch core of a Gemini proxy
server (src/server.js), shallowly embedded in Lean 4.

The embedding covers:
* credential loading (GEMINI_KEYS: split on commas, trim, drop empties);
* the dispatcher callGeminiWithRetry, modelled over an oracle
  assigning a transport result to each (key index, attempt number) pair,
  and instrumented to also return the trace of issued network calls,
  the backoff delays slept, and the errors recorded along the way;
* the response normalizer of the POST /chat route, over a model of
  parsed JSON values.
-/

namespace GeminiProxy

/-- A JSON value as produced by JSON.parse. -/
inductive JValue where
  | null
  | bool (b : Bool)
  | num (n : Int)
  | str (s : String)
  | arr (xs : List JValue)
  | obj (fields : List (String × JValue))

/-- JavaScript truthiness of a JSON value. -/
def truthy : JValue → Bool
  | .null => false
  | .bool b => b
  | .num n => n != 0
  | .str s => s != ""
  | .arr _ => true
  | .obj _ => true

/-- Property access v.key with optional chaining: undefined (none) unless
v is an object carrying the key. -/
def jget (v : JValue) (key : String) : Option JValue :=
  match v with
  | .obj fs => fs.lookup key
  | _ => none

/-- Index access v[n]: array element, or the string-keyed field of an
object (JS numeric property access); a plain value has no such property. -/
def jindex (v : JValue) (n : Nat) : Option JValue :=
  match v with
  | .arr xs => xs[n]?
  | .obj fs => fs.lookup (toString n)
  | _ => none

/-- The optional chain data?.candidates?.[0]?.content?.parts. -/
def partsField (data : JValue) : Option JValue :=
  (jget data "candidates").bind fun c =>
    (jindex c 0).bind fun c0 =>
      (jget c0 "content").bind fun ct =>
        jget ct "parts"

/-- The parts list when the chain ends in an actual array
(the Array.isArray(parts) guard), none otherwise. -/
def partsOf (data : JValue) : Option (List JValue) :=
  match partsField data with
  | some (.arr ps) => some ps
  | _ => none

/-- JS ASCII whitespace as trimmed by String.prototype.trim (restricted to
the characters occurring in this development). -/
def isJsWhitespace (c : Char) : Bool :=
  c = ' ' || c = '\t' || c = '\n' || c = '\r'

/-- JS String.prototype.trim: strip whitespace from both ends. -/
def jsTrim (s : String) : String :=
  String.mk (((s.data.dropWhile isJsWhitespace).reverse.dropWhile isJsWhitespace).reverse)

/-- One element of the map: p && typeof p.text === 'string' ? p.text : ''. -/
def partText (p : JValue) : String :=
  if truthy p then
    match p with
    | .obj fs =>
      match fs.lookup "text" with
      | some (.str s) => s
      | _ => ""
    | _ => ""
  else ""

/-- The reply string computed by the POST /chat route from the parsed
success body: map partText over the parts, join with a newline, trim;
empty string when the candidates structure is absent or malformed. -/
def extractReply (data : JValue) : String :=
  match partsOf data with
  | some ps => jsTrim (String.intercalate "\n" (ps.map partText))
  | none => ""

/-- A body shaped like the expected success payload, with the given parts. -/
def mkCandidateBody (ps : List JValue) : JValue :=
  .obj [("candidates", .arr [.obj [("content", .obj [("parts", .arr ps)])]])]

/-- A part object carrying a single text field. -/
def mkTextPart (t : String) : JValue :=
  .obj [("text", .str t)]

/-- Helper for JS String.prototype.split with separator a single comma:
walks the characters, cutting at every comma (acc holds the current
segment reversed). -/
def jsSplitCommaAux : List Char → List Char → List String
  | [], acc => [String.mk acc.reverse]
  | c :: cs, acc =>
    if c = ',' then String.mk acc.reverse :: jsSplitCommaAux cs []
    else jsSplitCommaAux cs (c :: acc)

/-- JS RAW_KEYS.split(','): note that splitting the empty string yields
a singleton list holding the empty string, as in JS. -/
def jsSplitComma (s : String) : List String :=
  jsSplitCommaAux s.data []

/-- Credential loading: RAW_KEYS.split(',').map(trim).filter(Boolean).
Boolean(k) is true exactly for nonempty strings. -/
def GEMINI_KEYS (rawKeys : String) : List String :=
  ((jsSplitComma rawKeys).map jsTrim).filter (fun k => k != "")

/-! ## The dispatcher callGeminiWithRetry

The network is modelled by an oracle assigning to each
(key index, attempt number) pair either a transport-level exception or
an HTTP response; attempt numbers start at 1 per key, as in the source
(attempt += 1 at the top of the while loop). -/

/-- Result of one fetch: a thrown transport error (the catch branch)
or an HTTP response with status and body text. -/
inductive TransportResult where
  | netErr (msg : String)
  | http (status : Nat) (body : String)
deriving DecidableEq, Repr

/-- The object literal returned by callGeminiWithRetry. -/
structure Outcome where
  ok : Bool
  status : Nat
  body : String
deriving DecidableEq, Repr

/-- How the per-key while loop ends: success returns the Outcome,
fatal returns the Outcome from inside the loop, advance breaks out to
the next key after storing lastError. -/
inductive KeyResult where
  | success (o : Outcome)
  | fatal (o : Outcome)
  | advance (e : Outcome)
deriving DecidableEq, Repr

/-- Terminal shape of a whole dispatch. -/
inductive EndKind where
  | configError
  | succeeded
  | fatalStop
  | exhausted
deriving DecidableEq, Repr

/-- Full result of a dispatch: the returned Outcome, how it ended,
the trace of network calls issued (key index, attempt number) in order,
the backoff delays slept in order, and the lastError values recorded
in order. -/
structure DispatchResult where
  outcome : Outcome
  kind : EndKind
  calls : List (Nat × Nat)
  delays : List Nat
  errors : List Outcome
deriving DecidableEq, Repr

/-- The while (true) loop body for one key, from a given attempt counter
and delay. Returns how the loop ended, the attempt numbers of the calls
issued, and the delays slept. Mirrors src/server.js lines 59-127:
fetch; on exception record lastError and break; on resp.ok return;
on 503 with attempt <= maxRetriesPerKey + 1 sleep delayMs, double it and
continue; on 429 record lastError and break; otherwise return the error. -/
def tryKeyFrom (net : Nat → TransportResult) (maxRetriesPerKey : Nat)
    (attempt delayMs : Nat) : KeyResult × List Nat × List Nat :=
  match net attempt with
  | .netErr msg => (.advance ⟨false, 0, msg⟩, [attempt], [])
  | .http status body =>
    if 200 ≤ status ∧ status ≤ 299 then
      (.success ⟨true, status, body⟩, [attempt], [])
    else if h : status = 503 ∧ attempt ≤ maxRetriesPerKey + 1 then
      let r := tryKeyFrom net maxRetriesPerKey (attempt + 1) (delayMs * 2)
      (r.1, attempt :: r.2.1, delayMs :: r.2.2)
    else if status = 429 then
      (.advance ⟨false, status, body⟩, [attempt], [])
    else
      (.fatal ⟨false, status, body⟩, [attempt], [])
termination_by maxRetriesPerKey + 2 - attempt
decreasing_by omega

/-- One key's loop as entered by the for loop: attempt counter and delay
reset to 0-incremented-to-1 and 1500. -/
def tryKey (net : Nat → TransportResult) (maxRetriesPerKey : Nat) :
    KeyResult × List Nat × List Nat :=
  tryKeyFrom net maxRetriesPerKey 1 1500

/-- The for loop over keys from a given index, threading lastError.
When the pool is exhausted, returns lastError if one was recorded, else
the generic all-keys-failed Outcome. -/
def dispatchFrom (net : Nat → Nat → TransportResult) (maxRetriesPerKey : Nat)
    (numKeys keyIndex : Nat) (lastError : Option Outcome) : DispatchResult :=
  if _h : keyIndex < numKeys then
    let t := tryKey (net keyIndex) maxRetriesPerKey
    let calls := t.2.1.map (fun a => (keyIndex, a))
    match t.1 with
    | .success o => ⟨o, .succeeded, calls, t.2.2, []⟩
    | .fatal o => ⟨o, .fatalStop, calls, t.2.2, []⟩
    | .advance e =>
      let rest := dispatchFrom net maxRetriesPerKey numKeys (keyIndex + 1) (some e)
      ⟨rest.outcome, rest.kind, calls ++ rest.calls, t.2.2 ++ rest.delays,
        e :: rest.errors⟩
  else
    ⟨lastError.getD ⟨false, 0, "All Gemini API keys failed"⟩, .exhausted, [], [], []⟩
termination_by numKeys - keyIndex
decreasing_by omega

/-- Function callGeminiWithRetry over a pool of keys: empty pool fails fast with
the no-keys-configured Outcome, otherwise the keys are tried in order
starting at index 0 with lastError = null. -/
def callGeminiWithRetry (net : Nat → Nat → TransportResult)
    (keys : List String) (maxRetriesPerKey : Nat) : DispatchResult :=
  if keys.isEmpty then
    ⟨⟨false, 0, "No Gemini API keys configured"⟩, .configError, [], [], []⟩
  else
    dispatchFrom net maxRetriesPerKey keys.length 0 none

/-! ## Branch equations for the per-key loop -/

/-- The fetch threw: lastError is recorded and the loop breaks. -/
theorem tryKeyFrom_netErr {net : Nat → TransportResult} {maxR attempt : Nat}
    (delay : Nat) {msg : String} (hnet : net attempt = .netErr msg) :
    tryKeyFrom net maxR attempt delay = (.advance ⟨false, 0, msg⟩, [attempt], []) := by
  rw [tryKeyFrom.eq_def, hnet]

/-- Branch resp.ok: the loop returns the success Outcome. -/
theorem tryKeyFrom_success {net : Nat → TransportResult} {maxR attempt : Nat}
    (delay : Nat) {s : Nat} {b : String} (hnet : net attempt = .http s b)
    (hs : 200 ≤ s ∧ s ≤ 299) :
    tryKeyFrom net maxR attempt delay = (.success ⟨true, s, b⟩, [attempt], []) := by
  rw [tryKeyFrom.eq_def, hnet]
  simp [hs]

/-- Status 503 within budget: sleep, double the delay, retry. -/
theorem tryKeyFrom_retry {net : Nat → TransportResult} {maxR attempt : Nat}
    (delay : Nat) {b : String} (hnet : net attempt = .http 503 b)
    (hb : attempt ≤ maxR + 1) :
    tryKeyFrom net maxR attempt delay =
      ((tryKeyFrom net maxR (attempt + 1) (delay * 2)).1,
        attempt :: (tryKeyFrom net maxR (attempt + 1) (delay * 2)).2.1,
        delay :: (tryKeyFrom net maxR (attempt + 1) (delay * 2)).2.2) := by
  rw [tryKeyFrom.eq_def, hnet]
  simp [hb]

/-- Status 429: lastError is recorded and the loop breaks to the next key. -/
theorem tryKeyFrom_429 {net : Nat → TransportResult} {maxR attempt : Nat}
    (delay : Nat) {b : String} (hnet : net attempt = .http 429 b) :
    tryKeyFrom net maxR attempt delay = (.advance ⟨false, 429, b⟩, [attempt], []) := by
  rw [tryKeyFrom.eq_def, hnet]
  simp

/-- Any other error: the loop returns the failure Outcome at once. -/
theorem tryKeyFrom_fatal {net : Nat → TransportResult} {maxR attempt : Nat}
    (delay : Nat) {s : Nat} {b : String} (hnet : net attempt = .http s b)
    (hok : ¬(200 ≤ s ∧ s ≤ 299)) (h429 : s ≠ 429)
    (h503 : ¬(s = 503 ∧ attempt ≤ maxR + 1)) :
    tryKeyFrom net maxR attempt delay = (.fatal ⟨false, s, b⟩, [attempt], []) := by
  rw [tryKeyFrom.eq_def, hnet]
  simp [hok, h503, h429]

/-! ## Fatal responses halt the loop -/

/-- If some call issued by the per-key loop got a response that the loop
classifies as fatal (non-2xx, not 429, and not a 503 within the retry
budget for its attempt number), then the loop ended fatally with exactly
that status and body, and that call was the last one issued. -/
theorem tryKeyFrom_fatal_of_mem {net : Nat → TransportResult} {maxR : Nat}
    {a s : Nat} {b : String} (hresp : net a = .http s b)
    (hok : ¬(200 ≤ s ∧ s ≤ 299)) (h429 : s ≠ 429)
    (h503 : ¬(s = 503 ∧ a ≤ maxR + 1)) :
    ∀ attempt delay, a ∈ (tryKeyFrom net maxR attempt delay).2.1 →
      (tryKeyFrom net maxR attempt delay).1 = .fatal ⟨false, s, b⟩ ∧
      (tryKeyFrom net maxR attempt delay).2.1.getLast? = some a := by
  intro attempt delay
  induction attempt, delay using tryKeyFrom.induct net maxR with
  | case1 attempt delay msg hnet =>
    rw [tryKeyFrom_netErr delay hnet]
    intro hmem
    rw [List.mem_singleton.mp hmem] at hresp
    rw [hresp] at hnet
    exact absurd hnet (by simp)
  | case2 attempt delay st bd hnet hst =>
    rw [tryKeyFrom_success delay hnet hst]
    intro hmem
    rw [List.mem_singleton.mp hmem] at hresp
    rw [hresp] at hnet
    injection hnet with h1 _
    omega
  | case3 attempt delay st bd hnet hnok hretry ih =>
    obtain ⟨rfl, hle⟩ := hretry
    rw [tryKeyFrom_retry delay hnet hle]
    intro hmem
    rcases List.mem_cons.mp hmem with rfl | hmem
    · rw [hresp] at hnet
      injection hnet with h1 _
      exact absurd ⟨h1, hle⟩ h503
    · obtain ⟨h1, h2⟩ := ih hmem
      refine ⟨h1, ?_⟩
      rcases hcalls : (tryKeyFrom net maxR (attempt + 1) (delay * 2)).2.1 with _ | ⟨c, cs⟩
      · rw [hcalls] at h2
        simp at h2
      · rw [hcalls] at h2
        simpa [List.getLast?_cons_cons] using h2
  | case4 attempt delay bd hnet _ _ =>
    rw [tryKeyFrom_429 delay hnet]
    intro hmem
    rw [List.mem_singleton.mp hmem] at hresp
    rw [hresp] at hnet
    injection hnet with h1 _
    exact absurd h1 h429
  | case5 attempt delay st bd hnet hnok hn503 hn429 =>
    rw [tryKeyFrom_fatal delay hnet hnok hn429 hn503]
    intro hmem
    obtain rfl := List.mem_singleton.mp hmem
    rw [hresp] at hnet
    injection hnet with h1 h2
    subst h1
    subst h2
    exact ⟨rfl, rfl⟩

/-! ## Branch equations for the key loop -/

/-- Pool exhausted: return lastError, or the generic failure if none. -/
theorem dispatchFrom_stop {net : Nat → Nat → TransportResult}
    {maxR numKeys keyIndex : Nat} {lastError : Option Outcome}
    (h : ¬ keyIndex < numKeys) :
    dispatchFrom net maxR numKeys keyIndex lastError =
      ⟨lastError.getD ⟨false, 0, "All Gemini API keys failed"⟩, .exhausted,
        [], [], []⟩ := by
  rw [dispatchFrom.eq_def]
  simp [h]

/-- The active key succeeded: its Outcome is returned. -/
theorem dispatchFrom_success {net : Nat → Nat → TransportResult}
    {maxR numKeys keyIndex : Nat} {lastError : Option Outcome} {o : Outcome}
    (h : keyIndex < numKeys)
    (hk : (tryKey (net keyIndex) maxR).1 = .success o) :
    dispatchFrom net maxR numKeys keyIndex lastError =
      ⟨o, .succeeded, (tryKey (net keyIndex) maxR).2.1.map (fun a => (keyIndex, a)),
        (tryKey (net keyIndex) maxR).2.2, []⟩ := by
  rw [dispatchFrom.eq_def]
  simp only [dif_pos h]
  rw [hk]

/-- The active key hit a fatal error: its Outcome is returned at once. -/
theorem dispatchFrom_fatal {net : Nat → Nat → TransportResult}
    {maxR numKeys keyIndex : Nat} {lastError : Option Outcome} {o : Outcome}
    (h : keyIndex < numKeys)
    (hk : (tryKey (net keyIndex) maxR).1 = .fatal o) :
    dispatchFrom net maxR numKeys keyIndex lastError =
      ⟨o, .fatalStop, (tryKey (net keyIndex) maxR).2.1.map (fun a => (keyIndex, a)),
        (tryKey (net keyIndex) maxR).2.2, []⟩ := by
  rw [dispatchFrom.eq_def]
  simp only [dif_pos h]
  rw [hk]

/-- The active key broke out (network error or 429): record the error
and move to the next key. -/
theorem dispatchFrom_advance {net : Nat → Nat → TransportResult}
    {maxR numKeys keyIndex : Nat} {lastError : Option Outcome} {e : Outcome}
    (h : keyIndex < numKeys)
    (hk : (tryKey (net keyIndex) maxR).1 = .advance e) :
    dispatchFrom net maxR numKeys keyIndex lastError =
      ⟨(dispatchFrom net maxR numKeys (keyIndex + 1) (some e)).outcome,
        (dispatchFrom net maxR numKeys (keyIndex + 1) (some e)).kind,
        (tryKey (net keyIndex) maxR).2.1.map (fun a => (keyIndex, a)) ++
          (dispatchFrom net maxR numKeys (keyIndex + 1) (some e)).calls,
        (tryKey (net keyIndex) maxR).2.2 ++
          (dispatchFrom net maxR numKeys (keyIndex + 1) (some e)).delays,
        e :: (dispatchFrom net maxR numKeys (keyIndex + 1) (some e)).errors⟩ := by
  rw [dispatchFrom.eq_def]
  simp only [dif_pos h]
  rw [hk]

/-- If some call issued by the dispatch got a fatal-classified response,
the whole dispatch stopped fatally with exactly that status and body, and
that call was the last network call issued. -/
theorem dispatchFrom_fatal_of_mem {net : Nat → Nat → TransportResult}
    {maxR numKeys : Nat} {i a s : Nat} {b : String}
    (hresp : net i a = .http s b)
    (hok : ¬(200 ≤ s ∧ s ≤ 299)) (h429 : s ≠ 429)
    (h503 : ¬(s = 503 ∧ a ≤ maxR + 1))
    (keyIndex : Nat) (lastError : Option Outcome)
    (hmem : (i, a) ∈ (dispatchFrom net maxR numKeys keyIndex lastError).calls) :
    (dispatchFrom net maxR numKeys keyIndex lastError).outcome = ⟨false, s, b⟩ ∧
    (dispatchFrom net maxR numKeys keyIndex lastError).kind = .fatalStop ∧
    (dispatchFrom net maxR numKeys keyIndex lastError).calls.getLast? =
      some (i, a) := by
  by_cases h : keyIndex < numKeys
  · rcases hk : (tryKey (net keyIndex) maxR).1 with o | o | e
    · rw [dispatchFrom_success h hk] at hmem
      simp only [List.mem_map] at hmem
      obtain ⟨a0, ha0, heq⟩ := hmem
      injection heq with h1 h2
      subst h1
      subst h2
      have := (tryKeyFrom_fatal_of_mem hresp hok h429 h503 1 1500 ha0).1
      unfold tryKey at hk
      rw [this] at hk
      exact absurd hk (by simp)
    · rw [dispatchFrom_fatal h hk]
      rw [dispatchFrom_fatal h hk] at hmem
      simp only [List.mem_map] at hmem
      obtain ⟨a0, ha0, heq⟩ := hmem
      injection heq with h1 h2
      subst h1
      subst h2
      have hfat := tryKeyFrom_fatal_of_mem hresp hok h429 h503 1 1500 ha0
      unfold tryKey at hk
      rw [hfat.1] at hk
      injection hk with h1
      refine ⟨h1.symm, rfl, ?_⟩
      rw [List.getLast?_map]
      unfold tryKey
      rw [hfat.2]
      rfl
    · rw [dispatchFrom_advance h hk]
      rw [dispatchFrom_advance h hk] at hmem
      rcases List.mem_append.mp hmem with hmem2 | hmem2
      · simp only [List.mem_map] at hmem2
        obtain ⟨a0, ha0, heq⟩ := hmem2
        injection heq with h1 h2
        subst h1
        subst h2
        have := (tryKeyFrom_fatal_of_mem hresp hok h429 h503 1 1500 ha0).1
        unfold tryKey at hk
        rw [this] at hk
        exact absurd hk (by simp)
      · obtain ⟨h1, h2, h3⟩ :=
          dispatchFrom_fatal_of_mem hresp hok h429 h503 (keyIndex + 1) (some e) hmem2
        refine ⟨h1, h2, ?_⟩
        rw [List.getLast?_append, h3]
        rfl
  · rw [dispatchFrom_stop h] at hmem
    simp at hmem
termination_by numKeys - keyIndex
decreasing_by omega

/-! ## Concrete network oracles used as test inputs -/

/-- Every network call returns HTTP 503. -/
def net503 : Nat → Nat → TransportResult := fun _ _ => .http 503 "UNAVAILABLE"

/-- Every network call returns HTTP 400. -/
def net400 : Nat → Nat → TransportResult := fun _ _ => .http 400 "Bad Request"

/-- Bodies of the 429 responses, indexed by key. -/
def bodyFn429 : Nat → String := fun i =>
  if i = 0 then "q0" else if i = 1 then "q1" else "q2"

/-- Every network call returns HTTP 429; the body names the key index. -/
def net429 : Nat → Nat → TransportResult := fun i _ => .http 429 (bodyFn429 i)

/-- Attempts 1 and 2 return 503, attempt 3 and later return 200. -/
def net503then200 : Nat → Nat → TransportResult := fun _ a =>
  if a ≤ 2 then .http 503 "u" else .http 200 "OK"

/-! ## Claim theorems -/

/-- Claim C1: with maxRetriesPerKey = 2 and every call returning 503, the code
issues 4 network calls with the single credential, not the claimed bound
of maxRetriesPerKey + 1 = 3: the retry guard attempt <= maxRetriesPerKey + 1
lets attempts 1, 2 and 3 each schedule a retry, so attempt 4 is issued
before the loop stops. -/
theorem all503_single_key_issues_four_calls :
    (callGeminiWithRetry net503 ["k"] 2).calls = [(0, 1), (0, 2), (0, 3), (0, 4)] ∧
    ¬ (callGeminiWithRetry net503 ["k"] 2).calls.length ≤ 2 + 1 := by
  constructor <;>
    simp [callGeminiWithRetry, dispatchFrom, tryKey, tryKeyFrom, net503]

/-- Claim C2: when the 503 retry budget is exceeded the code does not advance
to the next credential: with two credentials and every call returning 503,
the dispatch fatally returns the 503 after 4 calls on credential 0 and
credential 1 is never contacted. -/
theorem exhausted_503_stops_dispatch_without_failover :
    callGeminiWithRetry net503 ["k1", "k2"] 2 =
      ⟨⟨false, 503, "UNAVAILABLE"⟩, .fatalStop,
        [(0, 1), (0, 2), (0, 3), (0, 4)], [1500, 3000, 6000], []⟩ ∧
    ((callGeminiWithRetry net503 ["k1", "k2"] 2).calls.all
      fun c => c.1 == 0) = true := by
  constructor <;>
    simp [callGeminiWithRetry, dispatchFrom, tryKey, tryKeyFrom, net503]

/-- Claim C3: if any network call of a dispatch returned a non-2xx status that
is neither 429 nor a 503 within the retry budget for its attempt number,
then the dispatch returned a failure Outcome with exactly that status and
body, and that call was the last network call issued: no later credential
was contacted. -/
theorem fatal_status_halts_dispatch {net : Nat → Nat → TransportResult}
    {keys : List String} {maxR i a s : Nat} {b : String}
    (hmem : (i, a) ∈ (callGeminiWithRetry net keys maxR).calls)
    (hresp : net i a = .http s b)
    (hok : ¬(200 ≤ s ∧ s ≤ 299)) (h429 : s ≠ 429)
    (h503 : ¬(s = 503 ∧ a ≤ maxR + 1)) :
    (callGeminiWithRetry net keys maxR).outcome = ⟨false, s, b⟩ ∧
    (callGeminiWithRetry net keys maxR).kind = .fatalStop ∧
    (callGeminiWithRetry net keys maxR).calls.getLast? = some (i, a) := by
  unfold callGeminiWithRetry at hmem ⊢
  by_cases hk : keys.isEmpty
  · rw [if_pos hk] at hmem
    simp at hmem
  · rw [if_neg hk] at hmem ⊢
    exact dispatchFrom_fatal_of_mem hresp hok h429 h503 0 none hmem

/-- Witness for C3: a 400 on the first call of the first of three
credentials ends the dispatch with that 400; no other call is made. -/
theorem fatal_status_halts_dispatch_witness :
    (0, 1) ∈ (callGeminiWithRetry net400 ["k1", "k2", "k3"] 2).calls ∧
    (callGeminiWithRetry net400 ["k1", "k2", "k3"] 2).outcome =
      ⟨false, 400, "Bad Request"⟩ ∧
    (callGeminiWithRetry net400 ["k1", "k2", "k3"] 2).kind = .fatalStop ∧
    (callGeminiWithRetry net400 ["k1", "k2", "k3"] 2).calls.getLast? =
      some (0, 1) := by
  have hmem : (0, 1) ∈ (callGeminiWithRetry net400 ["k1", "k2", "k3"] 2).calls := by
    simp [callGeminiWithRetry, dispatchFrom, tryKey, tryKeyFrom, net400]
  refine ⟨hmem, ?_⟩
  exact fatal_status_halts_dispatch hmem rfl (by omega) (by omega) (by omega)

/-- Claim C6: with an empty credential pool the dispatch fails fast with the
no-keys-configured Outcome and issues zero network calls. -/
theorem empty_pool_fails_fast (net : Nat → Nat → TransportResult) (maxR : Nat) :
    callGeminiWithRetry net [] maxR =
      ⟨⟨false, 0, "No Gemini API keys configured"⟩, .configError, [], [], []⟩ :=
  rfl

/-- A 429 on the first attempt makes the per-key loop break at once
with the 429 recorded, after exactly one call and no backoff. -/
theorem tryKey_429 {net : Nat → TransportResult} {maxR : Nat} {b : String}
    (hnet : net 1 = .http 429 b) :
    tryKey net maxR = (.advance ⟨false, 429, b⟩, [1], []) := by
  unfold tryKey
  exact tryKeyFrom_429 1500 hnet

/-- When every remaining key answers 429 on its first attempt, the key
loop from keyIndex visits each remaining key exactly once, sleeps never,
records each 429, and exhausts with the last key's 429 as the Outcome. -/
theorem dispatchFrom_all429 {net : Nat → Nat → TransportResult}
    {maxR numKeys : Nat} {bodyFn : Nat → String}
    (hnet : ∀ i, i < numKeys → net i 1 = .http 429 (bodyFn i))
    (keyIndex : Nat) (lastError : Option Outcome) (h : keyIndex < numKeys) :
    dispatchFrom net maxR numKeys keyIndex lastError =
      ⟨⟨false, 429, bodyFn (numKeys - 1)⟩, .exhausted,
        (List.range' keyIndex (numKeys - keyIndex)).map (fun i => (i, 1)), [],
        (List.range' keyIndex (numKeys - keyIndex)).map
          (fun i => (⟨false, 429, bodyFn i⟩ : Outcome))⟩ := by
  have hk : tryKey (net keyIndex) maxR =
      (.advance ⟨false, 429, bodyFn keyIndex⟩, [1], []) :=
    tryKey_429 (hnet keyIndex h)
  have hk1 : (tryKey (net keyIndex) maxR).1 = .advance ⟨false, 429, bodyFn keyIndex⟩ := by
    rw [hk]
  rw [dispatchFrom_advance h hk1]
  by_cases h2 : keyIndex + 1 < numKeys
  · rw [dispatchFrom_all429 hnet (keyIndex + 1) (some ⟨false, 429, bodyFn keyIndex⟩) h2]
    have hn : numKeys - keyIndex = (numKeys - (keyIndex + 1)) + 1 := by omega
    rw [hn, List.range'_succ]
    simp [hk]
  · have hstop : ¬ keyIndex + 1 < numKeys := h2
    rw [dispatchFrom_stop hstop]
    have hn : numKeys - keyIndex = 1 := by omega
    have hlast : keyIndex = numKeys - 1 := by omega
    rw [hn, List.range'_succ]
    rw [hlast] at hk ⊢
    simp [hk, List.range']
termination_by numKeys - keyIndex
decreasing_by omega

/-- Claim C4: for a nonempty pool where every network call returns 429,
the dispatch issues exactly one call per credential, in pool order, with
no retries and no backoff waits, and returns a failure Outcome carrying
the last credential's 429 status and body. -/
theorem all429_one_call_per_key {net : Nat → Nat → TransportResult}
    {keys : List String} {maxR : Nat} {bodyFn : Nat → String}
    (hne : keys ≠ [])
    (hnet : ∀ i a, i < keys.length → net i a = .http 429 (bodyFn i)) :
    callGeminiWithRetry net keys maxR =
      ⟨⟨false, 429, bodyFn (keys.length - 1)⟩, .exhausted,
        (List.range keys.length).map (fun i => (i, 1)), [],
        (List.range keys.length).map
          (fun i => (⟨false, 429, bodyFn i⟩ : Outcome))⟩ := by
  unfold callGeminiWithRetry
  rw [if_neg (by simpa using hne)]
  rw [dispatchFrom_all429 (fun i hi => hnet i 1 hi) 0 none
    (by cases keys with | nil => exact absurd rfl hne | cons k ks => simp)]
  rw [List.range_eq_range']
  rfl

/-- Witness for C4: three keys all answering 429 produce exactly three
calls, one per key in order, and the last 429 body q2. -/
theorem all429_one_call_per_key_witness :
    callGeminiWithRetry net429 ["a", "b", "c"] 2 =
      ⟨⟨false, 429, "q2"⟩, .exhausted, [(0, 1), (1, 1), (2, 1)], [],
        [⟨false, 429, "q0"⟩, ⟨false, 429, "q1"⟩, ⟨false, 429, "q2"⟩]⟩ := by
  have h := @all429_one_call_per_key net429 ["a", "b", "c"] 2 bodyFn429
    (by simp) (fun i a _ => rfl)
  rw [h]
  rfl

/-- The per-key loop on a run of n consecutive 503s followed by a 2xx,
all within the retry budget: it issues the n + 1 calls with consecutive
attempt numbers, sleeps the doubling delays between them, and returns
the success Outcome. -/
theorem tryKeyFrom_503_run {net : Nat → TransportResult} {maxR : Nat}
    {eb : Nat → String} {s : Nat} {sb : String} (hs : 200 ≤ s ∧ s ≤ 299) :
    ∀ n attempt delay,
      (∀ a2, attempt ≤ a2 → a2 < attempt + n → net a2 = .http 503 (eb a2)) →
      net (attempt + n) = .http s sb →
      attempt + n ≤ maxR + 2 →
      tryKeyFrom net maxR attempt delay =
        (.success ⟨true, s, sb⟩, List.range' attempt (n + 1),
          (List.range n).map (fun j => delay * 2 ^ j)) := by
  intro n
  induction n with
  | zero =>
    intro attempt delay h503 hok _
    rw [tryKeyFrom_success delay (by simpa using hok) hs]
    simp [List.range']
  | succ n ih =>
    intro attempt delay h503 hok hb
    have h1 : net attempt = .http 503 (eb attempt) :=
      h503 attempt le_rfl (by omega)
    have hle : attempt ≤ maxR + 1 := by omega
    rw [tryKeyFrom_retry delay h1 hle]
    have hok2 : net (attempt + 1 + n) = .http s sb := by
      rw [show attempt + 1 + n = attempt + (n + 1) by omega]
      exact hok
    rw [ih (attempt + 1) (delay * 2)
      (fun a2 ha hb2 => h503 a2 (by omega) (by omega)) hok2 (by omega)]
    refine congrArg (fun p => ((KeyResult.success ⟨true, s, sb⟩ : KeyResult), p)) ?_
    have hcalls : List.range' attempt (n + 1 + 1) =
        attempt :: List.range' (attempt + 1) (n + 1) := List.range'_succ _ _ _
    rw [hcalls]
    refine congrArg (fun q => ((attempt :: List.range' (attempt + 1) (n + 1) :
      List Nat), q)) ?_
    show delay :: List.map (fun j => delay * 2 * 2 ^ j) (List.range n) =
      List.map (fun j => delay * 2 ^ j) (List.range (n + 1))
    rw [List.range_succ_eq_map, List.map_cons, List.map_map]
    simp only [pow_zero, mul_one]
    refine congrArg (fun l => delay :: l) ?_
    refine List.map_congr_left ?_
    intro j _
    simp [Function.comp, pow_succ]
    ring

/-- Claim C5: a single credential answering 503 on attempts 1..maxRetriesPerKey
and 2xx on attempt maxRetriesPerKey + 1 gets exactly maxRetriesPerKey + 1
calls, with the backoff delays 1500, 3000, ... doubling from the 1500 base
between consecutive calls, and the dispatch returns the raw success body. -/
theorem retries_503_with_doubling_backoff {net : Nat → Nat → TransportResult}
    {k : String} {maxR s : Nat} {sb : String} {eb : Nat → String}
    (h503 : ∀ a2, 1 ≤ a2 → a2 ≤ maxR → net 0 a2 = .http 503 (eb a2))
    (hok : net 0 (maxR + 1) = .http s sb)
    (hs : 200 ≤ s ∧ s ≤ 299) :
    callGeminiWithRetry net [k] maxR =
      ⟨⟨true, s, sb⟩, .succeeded,
        (List.range' 1 (maxR + 1)).map (fun a2 => (0, a2)),
        (List.range maxR).map (fun j => 1500 * 2 ^ j), []⟩ ∧
    (callGeminiWithRetry net [k] maxR).calls.length = maxR + 1 := by
  have hrun : tryKeyFrom (net 0) maxR 1 1500 =
      (.success ⟨true, s, sb⟩, List.range' 1 (maxR + 1),
        (List.range maxR).map (fun j => 1500 * 2 ^ j)) := by
    have := @tryKeyFrom_503_run (net 0) maxR eb s sb hs maxR 1 1500
      (by intro a2 ha hb; exact h503 a2 ha (by omega))
      (by rw [show 1 + maxR = maxR + 1 by omega]; exact hok) (by omega)
    exact this
  have hmain : callGeminiWithRetry net [k] maxR =
      ⟨⟨true, s, sb⟩, .succeeded,
        (List.range' 1 (maxR + 1)).map (fun a2 => (0, a2)),
        (List.range maxR).map (fun j => 1500 * 2 ^ j), []⟩ := by
    unfold callGeminiWithRetry
    rw [if_neg (by simp)]
    have hk1 : (tryKey (net 0) maxR).1 = .success ⟨true, s, sb⟩ := by
      unfold tryKey
      rw [hrun]
    rw [dispatchFrom_success (by simp) hk1]
    unfold tryKey
    rw [hrun]
  refine ⟨hmain, ?_⟩
  rw [hmain]
  simp

/-- Witness for C5: maxRetriesPerKey = 2, two 503s then a 200: three
calls on the single key with delays 1500, 3000 and the success Outcome. -/
theorem retries_503_with_doubling_backoff_witness :
    callGeminiWithRetry net503then200 ["k"] 2 =
      ⟨⟨true, 200, "OK"⟩, .succeeded, [(0, 1), (0, 2), (0, 3)],
        [1500, 3000], []⟩ := by
  have h := @retries_503_with_doubling_backoff net503then200 "k" 2 200 "OK"
    (fun _ => "u")
    (by
      intro a2 h1 h2
      unfold net503then200
      rw [if_pos h2])
    (by
      unfold net503then200
      rw [if_neg (by omega)])
    (by omega)
  rw [h.1]
  rfl

/-- The getLast? of a cons, read through getD: the head only matters when
the tail is empty. -/
theorem getLast?_cons_getD {α : Type} (e x : α) (l : List α) :
    ((e :: l).getLast?).getD x = (l.getLast?).getD e := by
  cases l with
  | nil => rfl
  | cons b bs =>
    rw [List.getLast?_cons_cons]
    rcases h : (b :: bs).getLast? with _ | v
    · exact absurd h (by simp)
    · rfl

/-- Whenever the key loop ends by exhausting the pool, the Outcome is
the last error it recorded, if any, else the lastError it started with,
else the generic all-keys-failed Outcome. -/
theorem dispatchFrom_exhausted_outcome {net : Nat → Nat → TransportResult}
    {maxR numKeys : Nat} (keyIndex : Nat) (lastError : Option Outcome)
    (h : (dispatchFrom net maxR numKeys keyIndex lastError).kind = .exhausted) :
    (dispatchFrom net maxR numKeys keyIndex lastError).outcome =
      ((dispatchFrom net maxR numKeys keyIndex lastError).errors.getLast?).getD
        (lastError.getD ⟨false, 0, "All Gemini API keys failed"⟩) := by
  by_cases hlt : keyIndex < numKeys
  · rcases hk : (tryKey (net keyIndex) maxR).1 with o | o | e
    · rw [dispatchFrom_success hlt hk] at h
      exact absurd h (by simp)
    · rw [dispatchFrom_fatal hlt hk] at h
      exact absurd h (by simp)
    · rw [dispatchFrom_advance hlt hk] at h ⊢
      have ih := dispatchFrom_exhausted_outcome (keyIndex + 1) (some e) h
      rw [ih]
      rw [getLast?_cons_getD]
      rfl
  · rw [dispatchFrom_stop hlt]
    rfl
termination_by numKeys - keyIndex
decreasing_by omega

/-- Claim C7: whenever a dispatch ends by exhausting the credential pool, the
returned Outcome is the last recorded classified error; the generic
all-keys-failed Outcome is the fallback only for an empty record. -/
theorem exhausted_returns_last_recorded_error {net : Nat → Nat → TransportResult}
    {keys : List String} {maxR : Nat}
    (h : (callGeminiWithRetry net keys maxR).kind = .exhausted) :
    (callGeminiWithRetry net keys maxR).outcome =
      ((callGeminiWithRetry net keys maxR).errors.getLast?).getD
        ⟨false, 0, "All Gemini API keys failed"⟩ := by
  unfold callGeminiWithRetry at h ⊢
  by_cases hk : keys.isEmpty
  · rw [if_pos hk] at h
    exact absurd h (by simp)
  · rw [if_neg hk] at h ⊢
    exact dispatchFrom_exhausted_outcome 0 none h

/-- Witness for C7: three keys all answering 429 exhaust the pool and
the Outcome is the last recorded 429 error. -/
theorem exhausted_returns_last_recorded_error_witness :
    (callGeminiWithRetry net429 ["a", "b", "c"] 2).kind = .exhausted ∧
    (callGeminiWithRetry net429 ["a", "b", "c"] 2).outcome =
      ((callGeminiWithRetry net429 ["a", "b", "c"] 2).errors.getLast?).getD
        ⟨false, 0, "All Gemini API keys failed"⟩ := by
  have hkind : (callGeminiWithRetry net429 ["a", "b", "c"] 2).kind = .exhausted := by
    simp [callGeminiWithRetry, dispatchFrom, tryKey, tryKeyFrom, net429]
  exact ⟨hkind, exhausted_returns_last_recorded_error hkind⟩

/-! ## Normalizer and credential-loading lemmas -/

/-- A well-shaped body delivers exactly its parts list to the join. -/
theorem extractReply_mkCandidateBody (ps : List JValue) :
    extractReply (mkCandidateBody ps) =
      jsTrim (String.intercalate "\n" (ps.map partText)) := rfl

/-- A part holding a text string contributes that string. -/
theorem partText_mkTextPart (t : String) : partText (mkTextPart t) = t := rfl

/-- A part object without a string text field contributes the empty
string. -/
theorem partText_no_text {fs : List (String × JValue)}
    (h : ∀ s, List.lookup "text" fs ≠ some (JValue.str s)) :
    partText (JValue.obj fs) = "" := by
  show (match List.lookup "text" fs with
    | some (.str s) => s
    | _ => "") = ""
  rcases hl : List.lookup "text" fs with _ | v
  · rfl
  · cases v with
    | str s => exact absurd hl (h s)
    | null => rfl
    | bool b => rfl
    | num n => rfl
    | arr xs => rfl
    | obj gs => rfl

/-- Claim C8: the reply of a shaped success body is the parts' text fields
joined with a newline and trimmed; the concrete two-part body gives the
reply joined by one newline; a body whose candidates chain is absent or
malformed yields the empty reply. -/
theorem reply_joins_texts_with_newline_and_trims :
    (∀ ts : List String,
      extractReply (mkCandidateBody (ts.map mkTextPart)) =
        jsTrim (String.intercalate "\n" ts)) ∧
    extractReply (mkCandidateBody [mkTextPart "A", mkTextPart "B"]) = "A\nB" ∧
    (∀ data : JValue, partsOf data = none → extractReply data = "") := by
  refine ⟨?_, by decide, ?_⟩
  · intro ts
    have hmap : (ts.map mkTextPart).map partText = ts := by
      rw [List.map_map]
      have h2 : ts.map (partText ∘ mkTextPart) = ts.map id :=
        List.map_congr_left (fun t _ => partText_mkTextPart t)
      rw [h2, List.map_id]
    rw [extractReply_mkCandidateBody, hmap]
  · intro data h
    unfold extractReply
    rw [h]

/-- Witness for C8: a body without candidates gives the empty reply, and
the two-string body joins with one newline. -/
theorem reply_joins_texts_with_newline_and_trims_witness :
    partsOf JValue.null = none ∧ extractReply JValue.null = "" ∧
    extractReply (mkCandidateBody (["A", "B"].map mkTextPart)) =
      jsTrim (String.intercalate "\n" ["A", "B"]) := by
  refine ⟨rfl, ?_, ?_⟩
  · exact reply_joins_texts_with_newline_and_trims.2.2 JValue.null rfl
  · exact reply_joins_texts_with_newline_and_trims.1 ["A", "B"]

/-- Claim C10: an entry of the parts array without a string text field
contributes an empty string between kept newline separators rather than
being skipped: concretely the three-part body normalizes to a reply with
two consecutive newlines. -/
theorem missing_text_part_contributes_empty_string :
    extractReply (mkCandidateBody [mkTextPart "A", JValue.obj [], mkTextPart "B"]) =
      "A\n\nB" ∧
    (∀ (a b : String) (fs : List (String × JValue)),
      (∀ s, List.lookup "text" fs ≠ some (JValue.str s)) →
      extractReply (mkCandidateBody [mkTextPart a, JValue.obj fs, mkTextPart b]) =
        jsTrim (a ++ "\n" ++ "\n" ++ b)) := by
  refine ⟨by decide, ?_⟩
  intro a b fs h
  rw [extractReply_mkCandidateBody]
  rw [List.map_cons, List.map_cons, List.map_cons, List.map_nil,
    partText_mkTextPart, partText_mkTextPart, partText_no_text h]
  have : String.intercalate "\n" [a, "", b] = a ++ "\n" ++ "\n" ++ b := by
    simp [String.intercalate, String.intercalate.go]
  rw [this]

/-- Witness for C10: the empty part object between two text parts leaves
a doubled newline in the reply. -/
theorem missing_text_part_contributes_empty_string_witness :
    extractReply (mkCandidateBody [mkTextPart "x", JValue.obj [], mkTextPart "y"]) =
      jsTrim ("x" ++ "\n" ++ "\n" ++ "y") :=
  missing_text_part_contributes_empty_string.2 "x" "y" []
    (fun _ h => Option.noConfusion h)

/-- Counterexample to C9: credential loading does not deduplicate, so the
raw input a,a loads a pool with a duplicate credential value. -/
theorem gemini_keys_not_deduplicated :
    GEMINI_KEYS "a,a" = ["a", "a"] ∧ ¬ (GEMINI_KEYS "a,a").Nodup := by
  constructor
  · decide
  · decide

/-- Amended C9: loading splits the raw value on commas, trims each
entry, and drops empty entries, preserving order and duplicates; every
loaded credential is a nonempty string. -/
theorem gemini_keys_split_trim_filter :
    (∀ raw k, k ∈ GEMINI_KEYS raw → k ≠ "") ∧
    GEMINI_KEYS " a , a ,,b " = ["a", "a", "b"] := by
  constructor
  · intro raw k hk
    have hb := List.of_mem_filter hk
    simpa using hb
  · decide

/-- Witness for the amended C9: the credential a loaded from a,a is
nonempty. -/
theorem gemini_keys_split_trim_filter_witness :
    "a" ∈ GEMINI_KEYS "a,a" ∧ "a" ≠ "" := by
  have hmem : "a" ∈ GEMINI_KEYS "a,a" := by decide
  exact ⟨hmem, gemini_keys_split_trim_filter.1 "a,a" "a" hmem⟩

end GeminiProxy
